import Mathlib

/-!
Verification of the GPU-Graphic inventory-reconciliation scripts.

Shallow embedding of the logic-bearing parts of the repository:

- generate_gpu_status.py   (namespace Gen): gres parsing, hostlist wrapper,
  per-node reconciliation, model grouping, listing-failure handling.
- old4_generate_gpu_status.py (namespace Old4): truth-map engine with
  index padding and first-record deduplication.
- old7_generate_gpu_status.py (namespace Old7): peer-mode engine with
  the statistical-mode expected count and node status classification.

External collaborators (scontrol, sinfo, srun, nvidia-smi) are modelled as
explicit inputs: their stdout text and exit codes are parameters of the
embedded functions, exactly as the scripts consume them.  Python dicts are
modelled as association lists in insertion order (CPython dicts preserve
insertion order); Python sets of small nonnegative integers are modelled by
their CPython open-addressing iteration order where a claim depends on it.
Python string primitives (split, strip, upper, lower, replace, startswith,
substring containment) are implemented on character lists by structural
recursion so that every definition evaluates inside the kernel.
-/

/-! ## Python string primitives on character lists -/

/-- Python sub in s substring containment on character lists. -/
def listContainsSub (s pat : List Char) : Bool :=
  (List.range (s.length + 1)).any (fun i => pat.isPrefixOf (s.drop i))

/-- Python substring containment, the expression pat in s on strings. -/
def strContainsSub (s pat : String) : Bool :=
  listContainsSub s.data pat.data

/-- Python str.split with a one-character separator: cuts at every
occurrence of the separator and keeps empty pieces, like the Python method
with an explicit separator.  cur accumulates the current piece reversed. -/
def splitOnCharGo (sep : Char) : List Char → List Char → List (List Char)
  | [], cur => [cur.reverse]
  | c :: rest, cur =>
    if c = sep then cur.reverse :: splitOnCharGo sep rest []
    else splitOnCharGo sep rest (c :: cur)

/-- Python str.split with a one-character separator, on strings. -/
def pySplit (s : String) (sep : Char) : List String :=
  (splitOnCharGo sep s.data []).map (fun l => String.mk l)

/-- Python str.replace, non-overlapping left-to-right replacement.  The
fuel argument (instantiated with the length of the text) makes the
recursion structural; every step consumes at least one character, so the
fuel never runs out on the instantiated calls. -/
def replaceGo (pat rep : List Char) : Nat → List Char → List Char
  | 0, l => l
  | _ + 1, [] => []
  | fuel + 1, c :: rest =>
    if 0 < pat.length ∧ pat.isPrefixOf (c :: rest) then
      rep ++ replaceGo pat rep fuel ((c :: rest).drop pat.length)
    else
      c :: replaceGo pat rep fuel rest

/-- Python str.replace on strings. -/
def pyReplace (s pat rep : String) : String :=
  String.mk (replaceGo pat.data rep.data s.data.length s.data)

/-- Python str.strip: remove leading and trailing whitespace. -/
def pyStrip (s : String) : String :=
  String.mk (((s.data.dropWhile Char.isWhitespace).reverse.dropWhile
    Char.isWhitespace).reverse)

/-- Python str.upper (ASCII). -/
def pyUpper (s : String) : String :=
  String.mk (s.data.map Char.toUpper)

/-- Python str.lower (ASCII). -/
def pyLower (s : String) : String :=
  String.mk (s.data.map Char.toLower)

/-- Python str.startswith. -/
def pyStartsWith (s pre : String) : Bool :=
  pre.data.isPrefixOf s.data

/-- Python str.isdigit for ASCII digit strings: nonempty and all digits. -/
def isDigits (s : String) : Bool :=
  !s.data.isEmpty && s.data.all (fun c => c.isDigit)

/-- Python int on a digit string. -/
def strToNat (s : String) : Nat :=
  s.data.foldl (fun acc c => acc * 10 + (c.toNat - 48)) 0

/-! ## Stable sort (Python list.sort and sorted are stable) -/

/-- Stable insertion into a list sorted by le; an element is placed before
the first existing element that does not compare le to it, matching the
stable placement of Python list.sort. -/
def insStable (le : α → α → Bool) (x : α) : List α → List α
  | [] => [x]
  | y :: ys => if le y x then y :: insStable le x ys else x :: y :: ys

/-- Stable sort by le, modelling Python list.sort / sorted (both stable). -/
def pySort (le : α → α → Bool) : List α → List α
  | [] => []
  | x :: xs => insStable le x (pySort le xs)

theorem insStable_perm (le : α → α → Bool) (x : α) (l : List α) :
    (insStable le x l).Perm (x :: l) := by
  induction l with
  | nil => simp [insStable]
  | cons y ys ih =>
    simp only [insStable]
    by_cases h : le y x = true
    · simp only [h, if_pos]
      exact (ih.cons y).trans (List.Perm.swap x y ys)
    · simp [h]

theorem pySort_perm (le : α → α → Bool) (l : List α) :
    (pySort le l).Perm l := by
  induction l with
  | nil => simp [pySort]
  | cons x xs ih =>
    exact (insStable_perm le x (pySort le xs)).trans (ih.cons x)

theorem mem_pySort (le : α → α → Bool) (l : List α) (a : α) :
    a ∈ pySort le l ↔ a ∈ l :=
  (pySort_perm le l).mem_iff

/-! ## generate_gpu_status.py -/

namespace Gen

/-- One GPU slot record as built by generate_gpu_status.py: the dict with
keys model, index (kept as the string the script stores) and state. -/
structure Gpu where
  model : String
  index : String
  state : String
deriving DecidableEq, Repr

/-- clean_gpu_name from generate_gpu_status.py: uppercase, remove the
NVIDIA and GEFORCE substrings, strip, then return the first value of the
mapping whose key occurs as a substring of the cleaned string, else the
cleaned raw string.  The mapping is listed in source order (CPython dicts
iterate in insertion order). -/
def clean_gpu_name (raw_name : String) : String :=
  let raw := pyStrip (pyReplace (pyReplace (pyUpper raw_name) "NVIDIA" "") "GEFORCE" "")
  let mapping : List (String × String) :=
    [("RTX 2080 TI", "RTX 2080Ti"),
     ("2080TI", "RTX 2080Ti"),
     ("RTX 6000", "RTX 6000"),
     ("QUADRO RTX 6000", "RTX 6000"),
     ("RTX 8000", "RTX 8000"),
     ("QUADRO RTX 8000", "RTX 8000"),
     ("H100", "H100"),
     ("A100", "A100"),
     ("V100", "V100"),
     ("L40S", "L40S")]
  match mapping.find? (fun kv => strContainsSub raw kv.1) with
  | some kv => kv.2
  | none => raw

/-- One step of the comma-separated loop of parse_slurm_gres: a part that
starts with gpu and splits on colons into two segments sets the count when
the trailing token is numeric (gpu:4); three segments also overwrite the
model (gpu:type:4).  Any other shape leaves the accumulator untouched. -/
def parse_gres_step (acc : String × Nat) (part : String) : String × Nat :=
  if pyStartsWith part "gpu" then
    match pySplit part ':' with
    | [_, c] => (acc.1, if isDigits c then strToNat c else acc.2)
    | [_, m, c] => (m, if isDigits c then strToNat c else acc.2)
    | _ => acc
  else acc

/-- parse_slurm_gres from generate_gpu_status.py.  When the string does not
contain gpu at all the initial pair is returned unchanged (the early return
skips clean_gpu_name); otherwise the comma-separated parts are folded and
the final model is passed through clean_gpu_name. -/
def parse_slurm_gres (gres_str : String) : String × Nat :=
  if !strContainsSub gres_str "gpu" then
    ("Unknown GPU", 0)
  else
    let r := (pySplit gres_str ',').foldl parse_gres_step ("Unknown GPU", 0)
    (clean_gpu_name r.1, r.2)

/-- The count a single gres part contributes, read off parse_gres_step:
none when the part sets no count (not gpu-prefixed, wrong segment shape,
or non-numeric trailing token). -/
def gpuPartCount (part : String) : Option Nat :=
  if pyStartsWith part "gpu" then
    match pySplit part ':' with
    | [_, c] => if isDigits c then some (strToNat c) else none
    | [_, _, c] => if isDigits c then some (strToNat c) else none
    | _ => none
  else none

theorem parse_gres_step_count (acc : String × Nat) (part : String) :
    (parse_gres_step acc part).2 = (gpuPartCount part).getD acc.2 := by
  unfold parse_gres_step gpuPartCount
  by_cases h1 : pyStartsWith part "gpu" = true
  · simp only [h1, if_pos]
    obtain _ | ⟨a, _ | ⟨b, _ | ⟨c, _ | ⟨d, rest⟩⟩⟩⟩ := pySplit part ':'
    · rfl
    · rfl
    · by_cases h : isDigits b = true <;> simp [h]
    · by_cases h : isDigits c = true <;> simp [h]
    · rfl
  · simp [h1]

/-- expand_hostlist from generate_gpu_status.py.  The expansion itself is
delegated to the external command scontrol show hostnames; the collaborator
is modelled as a function from the expression to its stripped stdout when
the exit code is zero, none when it is nonzero.  An empty expression yields
the empty list; on collaborator failure the raw expression is returned as a
one-element list. -/
def expand_hostlist (scontrol : String → Option String) (hostlist_expr : String) :
    List String :=
  if hostlist_expr = "" then []
  else
    match scontrol hostlist_expr with
    | some stdout => pySplit stdout '\n'
    | none => [hostlist_expr]

/-- Modelled from the spec: the contract of the external scontrol show
hostnames collaborator on bracket-free input (section 4.1 of the spec: an
expression with no brackets must come back as that single name), while the
command may also fail for any reason.  The repository does not contain the
expansion algorithm, only this wrapper around it. -/
def scontrolBracketFree (scontrol : String → Option String) : Prop :=
  ∀ e : String, (!e.data.contains '[' && !e.data.contains ']') = true →
    scontrol e = none ∨ scontrol e = some e

end Gen

namespace Gen

/-- The accessibility test of get_gpu_data: a node whose lowercased state
contains down, drng or drain is treated as inaccessible. -/
def is_accessible (node_state : String) : Bool :=
  !(strContainsSub (pyLower node_state) "down" ||
    strContainsSub (pyLower node_state) "drng" ||
    strContainsSub (pyLower node_state) "drain")

/-- One line of nvidia-smi csv output: empty lines are skipped, a line with
exactly three comma-separated fields yields a good slot whose model is the
cleaned first field and whose index is the stripped third field; any other
shape is skipped. -/
def parse_smi_line (line : String) : Option Gpu :=
  if line = "" then none
  else
    match pySplit line ',' with
    | [raw_model, _, index] =>
        some ⟨clean_gpu_name (pyStrip raw_model), pyStrip index, "good"⟩
    | _ => none

/-- The slot list built for one node by get_gpu_data of
generate_gpu_status.py.  probe is the (stdout, returncode) of the srun
nvidia-smi collaborator for this node; strategy A uses it only when the
node is accessible and it succeeded with nonempty output, strategy B falls
back to the slurm gres string, synthesizing count bad slots when the parsed
count is positive and nothing at all otherwise. -/
def node_gpus (node_state gres : String) (probe : String × Nat) : List Gpu :=
  let smi_success := is_accessible node_state && probe.2 == 0 && !(probe.1 == "")
  if smi_success then
    (pySplit probe.1 '\n').filterMap parse_smi_line
  else
    let mc := parse_slurm_gres gres
    if 0 < mc.2 then
      (List.range mc.2).map (fun i => ⟨mc.1, toString i, "bad"⟩)
    else []

/-- Python dict assignment d[k] = v on an association list: replace the
value in place when the key is present (CPython keeps the original
position), append otherwise. -/
def dictSet (k : String) (v : β) : List (String × β) → List (String × β)
  | [] => [(k, v)]
  | (k0, v0) :: rest =>
    if k0 = k then (k0, v) :: rest else (k0, v0) :: dictSet k v rest

/-- Python dict lookup as an option. -/
def dictGet (k : String) : List (String × β) → Option β
  | [] => none
  | (k0, v0) :: rest => if k0 = k then some v0 else dictGet k rest

/-- The per-node dict value of get_gpu_data. -/
structure NodeData where
  slurm_state : String
  gpus : List Gpu
deriving DecidableEq, Repr

/-- get_gpu_data of generate_gpu_status.py.  sinfo is the (stdout,
returncode) of the node-listing collaborator; a nonzero return code is
fatal (sys.exit(1), modelled as Except.error 1).  Otherwise every line with
at least three pipe-separated fields is expanded and each node gets its
reconciled slot list; blank and short lines are skipped and per-node probe
failures are absorbed by node_gpus, so no other input aborts the run. -/
def get_gpu_data (sinfo : String × Nat) (scontrol : String → Option String)
    (probe : String → String × Nat) : Except Nat (List (String × NodeData)) :=
  if sinfo.2 ≠ 0 then .error 1
  else
    .ok ((pySplit sinfo.1 '\n').foldl (fun data line =>
      if pyStrip line = "" then data
      else
        let parts := pySplit line '|'
        if parts.length < 3 then data
        else
          let node_state := parts.getD 1 ""
          let gres := parts.getD 2 ""
          (expand_hostlist scontrol (parts.getD 0 "")).foldl
            (fun d node_name =>
              dictSet node_name
                ⟨node_state, node_gpus node_state gres (probe node_name)⟩ d)
            data) [])

/-- Python dict-of-dict update used by organize_data_by_type on the inner
node dict: create the entry with an empty list when absent, then extend it
with the node gpus. -/
def innerUpd (node : String) (gpus : List Gpu) :
    List (String × List Gpu) → List (String × List Gpu)
  | [] => [(node, gpus)]
  | (k, v) :: rest =>
    if k = node then (k, v ++ gpus) :: rest else (k, v) :: innerUpd node gpus rest

/-- The outer model-keyed update of organize_data_by_type: create the model
entry when absent, then update its inner node dict. -/
def orgUpd (model node : String) (gpus : List Gpu) :
    List (String × List (String × List Gpu)) →
    List (String × List (String × List Gpu))
  | [] => [(model, innerUpd node gpus [])]
  | (k, inner) :: rest =>
    if k = model then (k, innerUpd node gpus inner) :: rest
    else (k, inner) :: orgUpd model node gpus rest

/-- One iteration of organize_data_by_type: a node with an empty slot list
is skipped, otherwise the node is filed under the model of its first slot. -/
def orgStep (org : List (String × List (String × List Gpu)))
    (p : String × NodeData) : List (String × List (String × List Gpu)) :=
  match p.2.gpus with
  | [] => org
  | g :: _ => orgUpd g.model p.1 p.2.gpus org

/-- organize_data_by_type from generate_gpu_status.py: fold the node dict
into a model-keyed dict of node dicts, then sort the outer items by model
key (dict(sorted(...)); keys are distinct so the tuple comparison is
decided by the keys). -/
def organize_data_by_type (raw_data : List (String × NodeData)) :
    List (String × List (String × List Gpu)) :=
  pySort (fun a b => decide (a.1 ≤ b.1)) (raw_data.foldl orgStep [])

end Gen

/-! ## old4_generate_gpu_status.py -/

namespace Old4

/-- One GPU slot record of the old4 engine.  The script stores indices as
strings but compares and sorts them as integers (int(idx) for membership in
the padding step, int as sort key); the probe output is one integer per
line, and synthesized indices are str(i), so indices are modelled as Nat. -/
structure Gpu4 where
  model : String
  index : Nat
  state : String
deriving DecidableEq, Repr

/-- Outcome of the srun nvidia-smi probe for one node as old4 consumes it:
ok carries the stripped nonempty stdout lines parsed as integers (the
script requires a zero return code and nonempty stdout before trusting the
output), failed is any nonzero return code, timeout or empty output. -/
inductive Probe4 where
  | ok (found : List Nat)
  | failed
deriving DecidableEq, Repr

/-- Strategy 1 of old4 get_gpu_data on probe success: every found index
becomes a good slot (in probe order); only when fewer indices were found
than expected, each index in 0..expected-1 that was not observed is
appended as a bad slot. -/
def found_slots (model : String) (expected_count : Nat) (found : List Nat) :
    List Gpu4 :=
  let good := found.map (fun idx => ⟨model, idx, "good"⟩)
  if found.length < expected_count then
    good ++ ((List.range expected_count).filter (fun i => !found.contains i)).map
      (fun i => ⟨model, i, "bad"⟩)
  else good

/-- The slot list old4 get_gpu_data builds for one node: strategy 1 on
probe success, strategy 2 (all expected slots bad) otherwise, then the
final sort by integer index (Python list.sort is stable). -/
def node_gpus (model : String) (expected_count : Nat) (p : Probe4) : List Gpu4 :=
  let gpus :=
    match p with
    | .ok found => found_slots model expected_count found
    | .failed =>
        if 0 < expected_count then
          (List.range expected_count).map (fun i => ⟨model, i, "bad"⟩)
        else []
  pySort (fun a b => decide (a.index ≤ b.index)) gpus

/-- The node-processing loop of old4 get_gpu_data over the flattened
(node name, node state) records produced by expanding every sinfo line:
a name already in the processed_nodes set is skipped, otherwise it is
added to the set and the per-node work g (truth-map lookup, probe and slot
construction for that record) is stored under the name. -/
def process (g : String → String → α) (seen : List String) :
    List (String × String) → List (String × α)
  | [] => []
  | (name, st) :: rest =>
    if name ∈ seen then process g seen rest
    else (name, g name st) :: process g (name :: seen) rest

theorem process_keys_not_seen (g : String → String → α) (seen : List String)
    (entries : List (String × String)) :
    ∀ n ∈ (process g seen entries).map Prod.fst, n ∉ seen := by
  induction entries generalizing seen with
  | nil => simp [process]
  | cons e rest ih =>
    obtain ⟨name, st⟩ := e
    unfold process
    by_cases h : name ∈ seen
    · rw [if_pos h]
      exact ih seen
    · rw [if_neg h]
      intro n hn
      simp only [List.map_cons, List.mem_cons] at hn
      rcases hn with rfl | hn
      · exact h
      · intro hs
        exact ih (name :: seen) n hn (List.mem_cons_of_mem _ hs)

theorem process_keys_nodup (g : String → String → α) (seen : List String)
    (entries : List (String × String)) :
    ((process g seen entries).map Prod.fst).Nodup := by
  induction entries generalizing seen with
  | nil => simp [process]
  | cons e rest ih =>
    obtain ⟨name, st⟩ := e
    unfold process
    by_cases h : name ∈ seen
    · rw [if_pos h]
      exact ih seen
    · rw [if_neg h]
      simp only [List.map_cons, List.nodup_cons]
      refine ⟨fun hmem => ?_, ih (name :: seen)⟩
      exact process_keys_not_seen g (name :: seen) rest name hmem
        (List.mem_cons_self name seen)

theorem process_first_record (g : String → String → α) (seen : List String)
    (entries : List (String × String)) (name : String) (hns : name ∉ seen) :
    Gen.dictGet name (process g seen entries) =
      (entries.find? (fun e => e.1 == name)).map (fun e => g e.1 e.2) := by
  induction entries generalizing seen with
  | nil => simp [process, Gen.dictGet]
  | cons e rest ih =>
    obtain ⟨ename, st⟩ := e
    unfold process
    by_cases heq : ename = name
    · have h1 : ename ∉ seen := by rw [heq]; exact hns
      rw [if_neg h1]
      simp [Gen.dictGet, List.find?, heq]
    · have hb : (ename == name) = false := by
        simp only [beq_eq_false_iff_ne, ne_eq]
        exact heq
      by_cases h : ename ∈ seen
      · rw [if_pos h]
        rw [ih seen hns]
        simp [List.find?, hb]
      · rw [if_neg h]
        have hname : name ∉ ename :: seen := by
          simp only [List.mem_cons, not_or]
          exact ⟨fun hx => heq hx.symm, hns⟩
        simp only [Gen.dictGet]
        rw [if_neg (fun hx : ename = name => heq hx)]
        rw [ih (ename :: seen) hname]
        simp [List.find?, hb]

end Old4

/-! ## old7_generate_gpu_status.py -/

namespace Old7

/-- One node record of old7 as produced by parse_nodes from one scontrol
block: the node name (first token of the block), the AvailableFeatures
string and the gres-reported gpu count.  The regex field extraction from
the raw block text is abstracted: the model receives the extracted triples
and embeds the logic applied to them. -/
structure NodeRec where
  name : String
  features : String
  gpu_count : Nat
deriving DecidableEq, Repr

/-- parse_nodes from old7: only nodes whose extracted gpu count is positive
are kept (the script appends a record only if gpu_count greater than 0). -/
def parse_nodes (extracted : List NodeRec) : List NodeRec :=
  extracted.filter (fun n => 0 < n.gpu_count)

/-- The loop inside Python max with a key function: the current maximum is
replaced only when a later element has a strictly greater key, so the first
element attaining the maximal key wins. -/
def pyMaxGo (key : Nat → Nat) (cur : Nat) : List Nat → Nat
  | [] => cur
  | x :: xs => pyMaxGo key (if key cur < key x then x else cur) xs

/-- Python max(iterable, key) on a list of naturals: none on the empty
list (Python raises there), otherwise the first element with maximal key. -/
def pyMax (key : Nat → Nat) : List Nat → Option Nat
  | [] => none
  | x :: xs => some (pyMaxGo key x xs)

/-- CPython iteration order of set(counts) for small nonnegative integers.
A CPython set uses an 8-slot open-addressing table while it holds at most
four distinct elements, a small int hashes to itself, so a value occupies
slot value mod 8 and iteration scans slots 0..7 in order.  This model is
faithful exactly when the distinct values of counts number at most four
and have pairwise distinct residues mod 8 (no collision probing); every
theorem that needs faithfulness carries that as the hypothesis that each
element of counts appears in the modelled iteration. -/
def pySetSmallNat (counts : List Nat) : List Nat :=
  (List.range 8).filterMap (fun s => counts.find? (fun v => v % 8 == s))

/-- The expected-count computation of old7 generate_report for one feature
group: max(set(counts), key=counts.count). -/
def mode (counts : List Nat) : Option Nat :=
  pyMax (fun v => counts.count v) (pySetSmallNat counts)

/-- The four node-status values of the specification; old7 renders the
first three as colored text and never produces Unknown. -/
inductive Status where
  | OK
  | Degraded
  | Over
  | Unknown
deriving DecidableEq, Repr

/-- The status classification of old7 (generate_report and
save_cluster_image use the identical comparison): Degraded when actual is
below expected, Over when above, OK otherwise. -/
def node_status (actual expected : Nat) : Status :=
  if actual < expected then Status.Degraded
  else if expected < actual then Status.Over
  else Status.OK

/-- The multiset of gpu counts of the nodes sharing a feature signature,
in node order: feature_groups of old7 built with a defaultdict append. -/
def feature_groups (nodes : List NodeRec) (f : String) : List Nat :=
  (nodes.filter (fun n => n.features == f)).map (fun n => n.gpu_count)

/-- The expected_counts entry for a feature signature: the mode of its
group.  For every feature that occurs among nodes the group is nonempty,
so the dict lookup of the script always succeeds. -/
def expected_count (nodes : List NodeRec) (f : String) : Option Nat :=
  mode (feature_groups nodes f)

/-- The per-node classification of old7 generate_report: look up the
expected count for the node feature signature over the whole batch and
compare the node gpu count against it. -/
def report_status (nodes : List NodeRec) (n : NodeRec) : Option Status :=
  (expected_count nodes n.features).map (fun e => node_status n.gpu_count e)

/-- get_slurm_data of old7: the scontrol collaborator result, where a
CalledProcessError (nonzero exit) is caught and turned into the empty
string, which parses into no node records.  The ok case carries the
extracted records of the output blocks. -/
def get_slurm_data (scontrol_result : Except Unit (List NodeRec)) : List NodeRec :=
  match scontrol_result with
  | .ok blocks => blocks
  | .error _ => []

/-- generate_report of old7 as a whole run: first component is the process
exit status, second the produced report.  The function never raises and
never calls sys.exit, so the exit status is 0 on every path; when no GPU
node was found (in particular after a listing failure) it prints a message
and returns early with no report, otherwise it reports every node sorted
by name with its status. -/
def generate_report (scontrol_result : Except Unit (List NodeRec)) :
    Nat × Option (List (NodeRec × Status)) :=
  let nodes := parse_nodes (get_slurm_data scontrol_result)
  if nodes.isEmpty then (0, none)
  else
    let sorted := pySort (fun a b => decide (a.name ≤ b.name)) nodes
    (0, some (sorted.filterMap (fun n => (report_status nodes n).map (fun s => (n, s)))))

theorem pyMaxGo_mem (key : Nat → Nat) (cur : Nat) (l : List Nat) :
    pyMaxGo key cur l = cur ∨ pyMaxGo key cur l ∈ l := by
  induction l generalizing cur with
  | nil => simp [pyMaxGo]
  | cons x xs ih =>
    simp only [pyMaxGo]
    rcases ih (if key cur < key x then x else cur) with h | h
    · rw [h]
      by_cases hk : key cur < key x
      · rw [if_pos hk]
        right
        exact List.mem_cons_self x xs
      · rw [if_neg hk]
        left
        rfl
    · right
      exact List.mem_cons_of_mem x h

theorem pyMax_mem (key : Nat → Nat) (l : List Nat) (v : Nat)
    (h : pyMax key l = some v) : v ∈ l := by
  cases l with
  | nil => simp [pyMax] at h
  | cons x xs =>
    simp only [pyMax, Option.some.injEq] at h
    rcases pyMaxGo_mem key x xs with hm | hm
    · rw [← h, hm]
      exact List.mem_cons_self x xs
    · rw [← h]
      exact List.mem_cons_of_mem x hm

theorem pyMaxGo_le (key : Nat → Nat) (cur : Nat) (l : List Nat) :
    key cur ≤ key (pyMaxGo key cur l) ∧
      ∀ w ∈ l, key w ≤ key (pyMaxGo key cur l) := by
  induction l generalizing cur with
  | nil => simp [pyMaxGo]
  | cons x xs ih =>
    simp only [pyMaxGo]
    obtain ⟨ih1, ih2⟩ := ih (if key cur < key x then x else cur)
    constructor
    · refine le_trans ?_ ih1
      by_cases hk : key cur < key x
      · rw [if_pos hk]
        exact le_of_lt hk
      · rw [if_neg hk]
    · intro w hw
      rcases List.mem_cons.1 hw with rfl | hw
      · refine le_trans ?_ ih1
        by_cases hk : key cur < key w
        · rw [if_pos hk]
        · rw [if_neg hk]
          exact le_of_not_lt hk
      · exact ih2 w hw

theorem pyMax_is_max (key : Nat → Nat) (l : List Nat) (v : Nat)
    (h : pyMax key l = some v) : ∀ w ∈ l, key w ≤ key v := by
  cases l with
  | nil => simp [pyMax] at h
  | cons x xs =>
    simp only [pyMax, Option.some.injEq] at h
    intro w hw
    obtain ⟨h1, h2⟩ := pyMaxGo_le key x xs
    rcases List.mem_cons.1 hw with rfl | hw
    · rw [← h]
      exact h1
    · rw [← h]
      exact h2 w hw

theorem pySetSmallNat_subset (counts : List Nat) (v : Nat)
    (h : v ∈ pySetSmallNat counts) : v ∈ counts := by
  unfold pySetSmallNat at h
  obtain ⟨s, _, hfind⟩ := List.mem_filterMap.1 h
  exact List.mem_of_find?_eq_some hfind

theorem mode_mem (counts : List Nat) (v : Nat) (h : mode counts = some v) :
    v ∈ counts :=
  pySetSmallNat_subset counts v (pyMax_mem _ _ _ h)

theorem pySetSmallNat_singleton (c : Nat) : pySetSmallNat [c] = [c] := by
  unfold pySetSmallNat
  have h8 : c % 8 < 8 := Nat.mod_lt _ (by norm_num)
  have hrange : List.range 8 = [0, 1, 2, 3, 4, 5, 6, 7] := by decide
  rw [hrange]
  have hfind : ∀ s : Nat, List.find? (fun v => v % 8 == s) [c] =
      if c % 8 = s then some c else none := by
    intro s
    by_cases hs : c % 8 = s
    · simp [List.find?, hs]
    · have hb : (c % 8 == s) = false := by
        simp only [beq_eq_false_iff_ne, ne_eq]
        exact hs
      simp only [List.find?, hb]
      rw [if_neg hs]
  simp only [List.filterMap_cons, hfind, List.filterMap_nil]
  interval_cases h : c % 8 <;> simp

end Old7

/-! ## Shared helper lemmas for the claim theorems -/

theorem foldl_gres_count_unchanged (parts : List String) :
    ∀ acc : String × Nat, (∀ part ∈ parts, Gen.gpuPartCount part = none) →
      (parts.foldl Gen.parse_gres_step acc).2 = acc.2 := by
  induction parts with
  | nil =>
    intro acc _
    rfl
  | cons p ps ih =>
    intro acc h
    simp only [List.foldl_cons]
    rw [ih _ (fun q hq => h q (List.mem_cons_of_mem p hq))]
    rw [Gen.parse_gres_step_count, h p (List.mem_cons_self p ps)]
    rfl

theorem splitOnCharGo_no_sep (sep : Char) (l : List Char) :
    ∀ cur : List Char, sep ∉ l → splitOnCharGo sep l cur = [cur.reverse ++ l] := by
  induction l with
  | nil =>
    intro cur _
    simp [splitOnCharGo]
  | cons c rest ih =>
    intro cur h
    have hc : ¬ c = sep := fun hx => h (hx ▸ List.mem_cons_self c rest)
    unfold splitOnCharGo
    rw [if_neg hc]
    rw [ih (c :: cur) (fun hx => h (List.mem_cons_of_mem c hx))]
    simp

theorem pySplit_no_sep (s : String) (sep : Char) (h : sep ∉ s.data) :
    pySplit s sep = [s] := by
  obtain ⟨d⟩ := s
  unfold pySplit
  rw [splitOnCharGo_no_sep sep d [] h]
  simp

/-! ## Claim theorems -/

/-- C5 counterexample: on the input mic:1 (no gpu segment) the parser
returns the sentinel pair (Unknown GPU, 0), not the pair (Unknown, 0) the
claim states. -/
theorem claim5_counterexample :
    Gen.parse_slurm_gres "mic:1" ≠ ("Unknown", 0) ∧
      Gen.parse_slurm_gres "mic:1" = ("Unknown GPU", 0) := by
  decide

/-- C5 (amended): for every input descriptor, when the string contains no
gpu substring the parser returns (Unknown GPU, 0) unchanged, and when every
comma-separated part contributes no count (in particular when every
gpu-prefixed segment has a non-numeric trailing token) the returned count
is 0; the parser is a total function, never an error. -/
theorem claim5_gres_parsing :
    (∀ gres : String, strContainsSub gres "gpu" = false →
      Gen.parse_slurm_gres gres = ("Unknown GPU", 0)) ∧
    (∀ gres : String, (∀ part ∈ pySplit gres ',', Gen.gpuPartCount part = none) →
      (Gen.parse_slurm_gres gres).2 = 0) := by
  constructor
  · intro gres h1
    unfold Gen.parse_slurm_gres
    rw [h1]
    rfl
  · intro gres h2
    unfold Gen.parse_slurm_gres
    by_cases hg : strContainsSub gres "gpu" = true
    · rw [hg]
      simp only [Bool.not_true, Bool.false_eq_true, if_false]
      exact foldl_gres_count_unchanged (pySplit gres ',') ("Unknown GPU", 0) h2
    · rw [Bool.not_eq_true] at hg
      rw [hg]
      rfl

/-- C5 witness: the amended theorem evaluated at mic:1 (no gpu substring)
and at gpu:abc (malformed trailing token). -/
theorem claim5_witness :
    Gen.parse_slurm_gres "mic:1" = ("Unknown GPU", 0) ∧
      (Gen.parse_slurm_gres "gpu:abc").2 = 0 :=
  ⟨claim5_gres_parsing.1 "mic:1" (by decide),
   claim5_gres_parsing.2 "gpu:abc" (by decide)⟩

/-- C6: the hostlist expander wrapped around the external scontrol
collaborator returns the expression itself as a one-element list whenever
the expression has no brackets (whether the collaborator echoes it back per
its contract or fails), and on any collaborator failure the raw expression
comes back as one opaque node name instead of a hard failure.  The
expression is a node name: nonempty and without a newline character. -/
theorem claim6_expander (scontrol : String → Option String) (expr : String)
    (hc : Gen.scontrolBracketFree scontrol) (hne : expr ≠ "")
    (hnl : Char.ofNat 10 ∉ expr.data) :
    ((!expr.data.contains '[' && !expr.data.contains ']') = true →
      Gen.expand_hostlist scontrol expr = [expr]) ∧
    (scontrol expr = none → Gen.expand_hostlist scontrol expr = [expr]) := by
  constructor
  · intro hb
    unfold Gen.expand_hostlist
    rw [if_neg hne]
    rcases hc expr hb with h | h
    · rw [h]
    · rw [h]
      exact pySplit_no_sep expr (Char.ofNat 10) hnl
  · intro hf
    unfold Gen.expand_hostlist
    rw [if_neg hne, hf]

/-- C6 witness: the bracket-free expression node01 passes through both on
collaborator success (echo contract) and on collaborator failure. -/
theorem claim6_witness :
    Gen.expand_hostlist (fun e => some e) "node01" = ["node01"] ∧
      Gen.expand_hostlist (fun _ => none) "node01" = ["node01"] :=
  ⟨(claim6_expander (fun e => some e) "node01" (fun _ _ => Or.inr rfl)
      (by decide) (by decide)).1 (by decide),
   (claim6_expander (fun _ => none) "node01" (fun _ _ => Or.inl rfl)
      (by decide) (by decide)).2 rfl⟩

/-- C4 counterexample: in old7 a listing failure (the scontrol collaborator
exiting nonzero, caught as CalledProcessError) makes the run print a
message and return normally: exit status 0 and no report, not the nonzero
exit status the claim requires. -/
theorem claim4_counterexample :
    Old7.generate_report (Except.error ()) = (0, none) := by
  decide

/-- C4 (amended): in generate_gpu_status.py a nonzero exit of the sinfo
node-listing collaborator, and only that, aborts the run (sys.exit 1)
before any data is produced; with a zero exit the run always completes and
produces a dataset, whatever the listing text, the hostlist collaborator
and the per-node probes return (empty-but-successful listing output is not
fatal, and per-node errors are absorbed).  In the old7 variant even a
listing failure terminates with status 0 and no report. -/
theorem claim4_listing_failure (stdout : String) (rc : Nat)
    (scontrol : String → Option String) (probe : String → String × Nat) :
    (rc ≠ 0 → Gen.get_gpu_data (stdout, rc) scontrol probe = Except.error 1) ∧
    (rc = 0 → ∃ d, Gen.get_gpu_data (stdout, rc) scontrol probe = Except.ok d) := by
  constructor
  · intro h
    unfold Gen.get_gpu_data
    rw [if_pos h]
  · intro h
    subst h
    exact ⟨_, rfl⟩

/-- C4 witness: a nonzero listing exit code aborts with exit status 1, a
zero exit code with empty output completes normally. -/
theorem claim4_witness :
    Gen.get_gpu_data ("", 1) (fun _ => none) (fun _ => ("", 0)) = Except.error 1 ∧
      ∃ d, Gen.get_gpu_data ("", 0) (fun _ => none) (fun _ => ("", 0)) = Except.ok d :=
  ⟨(claim4_listing_failure "" 1 (fun _ => none) (fun _ => ("", 0))).1 (by decide),
   (claim4_listing_failure "" 0 (fun _ => none) (fun _ => ("", 0))).2 rfl⟩

/-- C3 counterexample: over the tied multiset 8,8,4,4 the code resolves the
expected count to 8, the larger of the two tied counts, because Python max
keeps the first element of the set-iteration order (8 before 4 in CPython)
on ties; the claim says the smaller count 4 is chosen. -/
theorem claim3_counterexample :
    List.count 4 [8, 8, 4, 4] = List.count 8 [8, 8, 4, 4] ∧
      Old7.mode [8, 8, 4, 4] = some 8 ∧ (4 : Nat) < 8 := by
  decide

/-- C3 (amended): the resolved expected count for a peer group is a most
frequent value of the multiset of observed counts (a statistical mode), but
the tie-break among equally frequent counts follows the CPython
set-iteration order and is not guaranteed to prefer the smaller count.  The
hypothesis states that the modelled iteration covers every count, which
holds exactly on the faithfulness domain of the set model (at most four
distinct counts with distinct residues mod 8). -/
theorem claim3_mode (counts : List Nat) (v : Nat)
    (hf : ∀ w ∈ counts, w ∈ Old7.pySetSmallNat counts)
    (hm : Old7.mode counts = some v) :
    v ∈ counts ∧ ∀ w ∈ counts, counts.count w ≤ counts.count v :=
  ⟨Old7.mode_mem counts v hm,
   fun w hw => Old7.pyMax_is_max (fun x => counts.count x) _ v hm w (hf w hw)⟩

/-- C3 witness: the amended theorem at the tied multiset 8,8,4,4, whose
resolved mode is 8. -/
theorem claim3_witness :
    8 ∈ [8, 8, 4, 4] ∧
      ∀ w ∈ [8, 8, 4, 4], List.count w [8, 8, 4, 4] ≤ List.count 8 [8, 8, 4, 4] :=
  claim3_mode [8, 8, 4, 4] 8 (by decide) (by decide)

/-- C8: under the peer-mode strategy a node whose feature signature is
unique in the batch (the signature filter returns exactly that node) gets
its own observed count as expected count, so its status is OK whatever the
observed count was. -/
theorem claim8_singleton_ok (nodes : List Old7.NodeRec) (n : Old7.NodeRec)
    (h : nodes.filter (fun m => m.features == n.features) = [n]) :
    Old7.report_status nodes n = some Old7.Status.OK := by
  unfold Old7.report_status Old7.expected_count Old7.feature_groups
  rw [h]
  simp only [List.map_cons, List.map_nil]
  unfold Old7.mode Old7.pyMax
  rw [Old7.pySetSmallNat_singleton]
  simp [Old7.pyMaxGo, Old7.node_status]

/-- C8 witness: a node with a unique signature and observed count 5 in a
batch with one other node is classified OK. -/
theorem claim8_witness :
    Old7.report_status [⟨"n1", "sigA", 5⟩, ⟨"n2", "sigB", 3⟩] ⟨"n1", "sigA", 5⟩ =
      some Old7.Status.OK :=
  claim8_singleton_ok [⟨"n1", "sigA", 5⟩, ⟨"n2", "sigB", 3⟩] ⟨"n1", "sigA", 5⟩
    (by decide)

/-- Every gpu count in a feature group over parsed nodes is positive,
because parse_nodes keeps only records with a positive count. -/
theorem feature_group_pos (extracted : List Old7.NodeRec) (f : String) (e : Nat)
    (he : e ∈ Old7.feature_groups (Old7.parse_nodes extracted) f) : 0 < e := by
  unfold Old7.feature_groups at he
  obtain ⟨m, hm, hme⟩ := List.mem_map.1 he
  have hmp : m ∈ Old7.parse_nodes extracted := (List.mem_filter.1 hm).1
  have := (List.mem_filter.1 hmp).2
  rw [← hme]
  exact of_decide_eq_true this

/-- C2: for every node kept by parse_nodes, with e the expected count
resolved for its feature signature over the batch, the status is OK exactly
when the observed count equals e, Degraded exactly when it is below e, Over
exactly when it is above e, and Unknown exactly when e is zero (in this
variant e is always positive and the status is never Unknown, so both sides
of the last equivalence are false); statuses are therefore mutually
exclusive and no node is both OK and Degraded. -/
theorem claim2_status_iff (extracted : List Old7.NodeRec) (n : Old7.NodeRec)
    (e : Nat) (_hn : n ∈ Old7.parse_nodes extracted)
    (he : Old7.expected_count (Old7.parse_nodes extracted) n.features = some e) :
    (Old7.node_status n.gpu_count e = Old7.Status.OK ↔ n.gpu_count = e) ∧
    (Old7.node_status n.gpu_count e = Old7.Status.Degraded ↔ n.gpu_count < e) ∧
    (Old7.node_status n.gpu_count e = Old7.Status.Over ↔ e < n.gpu_count) ∧
    (Old7.node_status n.gpu_count e = Old7.Status.Unknown ↔ e = 0) := by
  have hepos : 0 < e :=
    feature_group_pos extracted n.features e (Old7.mode_mem _ e he)
  rcases Nat.lt_trichotomy n.gpu_count e with h | h | h
  · have hs : Old7.node_status n.gpu_count e = Old7.Status.Degraded := by
      unfold Old7.node_status
      rw [if_pos h]
    rw [hs]
    refine ⟨?_, ?_, ?_, ?_⟩ <;> simp <;> omega
  · have hs : Old7.node_status n.gpu_count e = Old7.Status.OK := by
      unfold Old7.node_status
      rw [if_neg (by omega), if_neg (by omega)]
    rw [hs]
    refine ⟨?_, ?_, ?_, ?_⟩ <;> simp <;> omega
  · have hs : Old7.node_status n.gpu_count e = Old7.Status.Over := by
      unfold Old7.node_status
      rw [if_neg (by omega), if_pos h]
    rw [hs]
    refine ⟨?_, ?_, ?_, ?_⟩ <;> simp <;> omega

/-- C2 witness: two nodes sharing a signature with counts 8 and 5; for the
count-8 node the expected count resolves to 8 and the equivalences hold
concretely. -/
theorem claim2_witness :
    (Old7.node_status 8 8 = Old7.Status.OK ↔ 8 = 8) ∧
    (Old7.node_status 8 8 = Old7.Status.Degraded ↔ 8 < 8) ∧
    (Old7.node_status 8 8 = Old7.Status.Over ↔ 8 < 8) ∧
    (Old7.node_status 8 8 = Old7.Status.Unknown ↔ 8 = 0) :=
  claim2_status_iff [⟨"n1", "sig", 8⟩, ⟨"n2", "sig", 8⟩] ⟨"n1", "sig", 8⟩ 8
    (by decide) (by decide)

/-- C7: for a node whose state marks it inaccessible (the lowercased state
contains down, drng or drain) the probe result never influences the
outcome, i.e. the decision is made from the node state alone before any
probe, and the slot list is the expected gres-derived count of slots all in
the bad state (zero slots when the count is zero). -/
theorem claim7_inaccessible (node_state gres : String)
    (h : Gen.is_accessible node_state = false) :
    (∀ p : String × Nat, Gen.node_gpus node_state gres p =
      (List.range (Gen.parse_slurm_gres gres).2).map
        (fun i => ⟨(Gen.parse_slurm_gres gres).1, toString i, "bad"⟩)) ∧
    (∀ p1 p2 : String × Nat,
      Gen.node_gpus node_state gres p1 = Gen.node_gpus node_state gres p2) := by
  have h2 : ∀ p : String × Nat, Gen.node_gpus node_state gres p =
      (List.range (Gen.parse_slurm_gres gres).2).map
        (fun i => ⟨(Gen.parse_slurm_gres gres).1, toString i, "bad"⟩) := by
    intro p
    unfold Gen.node_gpus
    rw [h]
    simp only [Bool.false_and, Bool.false_eq_true, if_false]
    by_cases hc : 0 < (Gen.parse_slurm_gres gres).2
    · rw [if_pos hc]
    · rw [if_neg hc]
      have hz : (Gen.parse_slurm_gres gres).2 = 0 := by omega
      rw [hz]
      simp
  exact ⟨h2, fun p1 p2 => (h2 p1).trans (h2 p2).symm⟩

/-- C7 witness: a node in state down with gres gpu:rtx2080ti:8 yields the
same slot list for a successful probe and for a failed one, namely eight
bad RTX 2080Ti slots. -/
theorem claim7_witness :
    Gen.node_gpus "down" "gpu:rtx2080ti:8" ("0,0,0", 0) =
      Gen.node_gpus "down" "gpu:rtx2080ti:8" ("", 1) ∧
    Gen.node_gpus "down" "gpu:rtx2080ti:8" ("", 1) =
      (List.range 8).map (fun i => ⟨"RTX 2080Ti", toString i, "bad"⟩) := by
  constructor
  · exact (claim7_inaccessible "down" "gpu:rtx2080ti:8" (by decide)).2 _ _
  · rw [(claim7_inaccessible "down" "gpu:rtx2080ti:8" (by decide)).1 ("", 1)]
    decide

/-- Membership in the key list of a modelled dict coincides with a defined
lookup. -/
theorem dictGet_isSome (name : String) (d : List (String × β)) :
    (Gen.dictGet name d).isSome = true ↔ name ∈ d.map Prod.fst := by
  induction d with
  | nil => simp [Gen.dictGet]
  | cons kv rest ih =>
    obtain ⟨k, v⟩ := kv
    unfold Gen.dictGet
    by_cases h : k = name
    · rw [if_pos h]
      simp [h]
    · rw [if_neg h]
      simp only [List.map_cons, List.mem_cons, ih]
      constructor
      · intro hm
        exact Or.inr hm
      · intro hm
        rcases hm with hm | hm
        · exact absurd hm.symm h
        · exact hm

/-- C10: in the old4 truth-map engine, processing the flattened node
records with the processed_nodes set yields one entry per distinct node
name (keys without duplicates), the stored value for every name comes from
the first record carrying that name, and a name is present exactly when it
occurs in the input records. -/
theorem claim10_first_record (g : String → String → α)
    (entries : List (String × String)) :
    ((Old4.process g [] entries).map Prod.fst).Nodup ∧
    (∀ name : String, Gen.dictGet name (Old4.process g [] entries) =
      (entries.find? (fun e => e.1 == name)).map (fun e => g e.1 e.2)) ∧
    (∀ name : String, name ∈ (Old4.process g [] entries).map Prod.fst ↔
      name ∈ entries.map Prod.fst) := by
  refine ⟨Old4.process_keys_nodup g [] entries,
    fun name => Old4.process_first_record g [] entries name (by simp),
    fun name => ?_⟩
  rw [← dictGet_isSome, Old4.process_first_record g [] entries name (by simp)]
  cases hfind : List.find? (fun e => e.1 == name) entries with
  | none =>
    simp only [Option.map_none', Option.isSome_none, Bool.false_eq_true, false_iff]
    intro hm
    obtain ⟨e, he, hme⟩ := List.mem_map.1 hm
    have hne := List.find?_eq_none.1 hfind e he
    simp [hme] at hne
  | some e =>
    simp only [Option.map_some', Option.isSome_some, true_iff]
    have hmem := List.mem_of_find?_eq_some hfind
    have hp := List.find?_some hfind
    have he1 : e.1 = name := by simpa using hp
    rw [← he1]
    exact List.mem_map_of_mem Prod.fst hmem

/-- C1 counterexample: a node reconciled with expected count 1 whose probe
reported the single out-of-range index 1 ends with slot index set containing
1 and missing 0, so the final index set is not the range 0..0: the observed
index is kept verbatim and, because one index was found, no padding runs. -/
theorem claim1_counterexample :
    Old4.node_gpus "RTX 2080Ti" 1 (Old4.Probe4.ok [1]) =
        [⟨"RTX 2080Ti", 1, "good"⟩] ∧
      0 ∉ (Old4.node_gpus "RTX 2080Ti" 1 (Old4.Probe4.ok [1])).map
        (fun s => s.index) := by
  decide

/-- The slot multiset produced by found_slots before the final sort: on the
padding branch the index list is the found indices followed by the
unobserved indices of the expected range. -/
theorem found_slots_map_index (model : String) (N : Nat) (found : List Nat) :
    (Old4.found_slots model N found).map (fun s => s.index) =
      if found.length < N then
        found ++ (List.range N).filter (fun i => !found.contains i)
      else found := by
  unfold Old4.found_slots
  by_cases hlt : found.length < N
  · rw [if_pos hlt, if_pos hlt]
    simp [List.map_map, Function.comp_def]
  · rw [if_neg hlt, if_neg hlt]
    simp [List.map_map, Function.comp_def]

/-- On the no-padding branch with distinct in-range indices, the found list
covers the whole expected range. -/
theorem found_covers_range (N : Nat) (found : List Nat) (hnd : found.Nodup)
    (hbound : ∀ i ∈ found, i < N) (hge : ¬ found.length < N) :
    ∀ i : Nat, i ∈ found ↔ i < N := by
  have hsub : found.toFinset ⊆ Finset.range N := fun i hi =>
    Finset.mem_range.2 (hbound i (List.mem_toFinset.1 hi))
  have hcard : found.toFinset.card = found.length :=
    List.toFinset_card_of_nodup hnd
  have heq : found.toFinset = Finset.range N :=
    Finset.eq_of_subset_of_card_le hsub
      (by rw [Finset.card_range, hcard]; omega)
  intro i
  rw [← List.mem_toFinset, heq, Finset.mem_range]

/-- C1 (amended): provided the probe-observed indices are distinct and all
within the expected range 0..N-1 (with N positive), the final slot list of
a node carries every index of that range exactly once, observed indices in
the good state and synthesized ones in the bad state, all with the expected
model.  The unconditional claim fails for out-of-range or duplicated
observed indices, which the engine keeps verbatim (see the
counterexample). -/
theorem claim1_padding (model : String) (N : Nat) (found : List Nat)
    (_hpos : 0 < N) (hnd : found.Nodup) (hbound : ∀ i ∈ found, i < N) :
    (∀ i : Nat, i ∈ (Old4.node_gpus model N (Old4.Probe4.ok found)).map
        (fun s => s.index) ↔ i < N) ∧
    ((Old4.node_gpus model N (Old4.Probe4.ok found)).map
        (fun s => s.index)).Nodup ∧
    (∀ s ∈ Old4.node_gpus model N (Old4.Probe4.ok found),
      s.state = (if s.index ∈ found then "good" else "bad") ∧
        s.model = model) := by
  have hnode : Old4.node_gpus model N (Old4.Probe4.ok found) =
      pySort (fun a b => decide (a.index ≤ b.index))
        (Old4.found_slots model N found) := rfl
  have hperm := pySort_perm (fun (a : Old4.Gpu4) b => decide (a.index ≤ b.index))
    (Old4.found_slots model N found)
  have hmap := hperm.map (fun s : Old4.Gpu4 => s.index)
  refine ⟨?_, ?_, ?_⟩
  · intro i
    rw [hnode, hmap.mem_iff, found_slots_map_index]
    by_cases hlt : found.length < N
    · rw [if_pos hlt]
      constructor
      · intro hi
        rcases List.mem_append.1 hi with hi | hi
        · exact hbound i hi
        · exact List.mem_range.1 (List.mem_filter.1 hi).1
      · intro hi
        by_cases hif : i ∈ found
        · exact List.mem_append.2 (Or.inl hif)
        · refine List.mem_append.2 (Or.inr (List.mem_filter.2
            ⟨List.mem_range.2 hi, ?_⟩))
          simpa using hif
    · rw [if_neg hlt]
      exact found_covers_range N found hnd hbound hlt i
  · rw [hnode, hmap.nodup_iff, found_slots_map_index]
    by_cases hlt : found.length < N
    · rw [if_pos hlt]
      rw [List.nodup_append]
      refine ⟨hnd, List.Nodup.filter _ (List.nodup_range N), ?_⟩
      intro a ha hfa
      have hna : a ∉ found := by simpa using (List.mem_filter.1 hfa).2
      exact hna ha
    · rw [if_neg hlt]
      exact hnd
  · intro s hs
    rw [hnode, hperm.mem_iff] at hs
    unfold Old4.found_slots at hs
    by_cases hlt : found.length < N
    · rw [if_pos hlt] at hs
      rcases List.mem_append.1 hs with hg | hb
      · obtain ⟨idx, hidx, rfl⟩ := List.mem_map.1 hg
        refine ⟨?_, rfl⟩
        rw [if_pos hidx]
      · obtain ⟨i, hi, rfl⟩ := List.mem_map.1 hb
        have hni : i ∉ found := by
          have := (List.mem_filter.1 hi).2
          simpa using this
        refine ⟨?_, rfl⟩
        rw [if_neg hni]
    · rw [if_neg hlt] at hs
      obtain ⟨idx, hidx, rfl⟩ := List.mem_map.1 hs
      refine ⟨?_, rfl⟩
      rw [if_pos hidx]

/-- C1 witness: expected count 3 with observed indices 0 and 2 yields index
set 0,1,2 without duplicates; the unobserved index 1 is present. -/
theorem claim1_witness :
    (1 ∈ (Old4.node_gpus "RTX 2080Ti" 3 (Old4.Probe4.ok [0, 2])).map
        (fun s => s.index)) ∧
    ((Old4.node_gpus "RTX 2080Ti" 3 (Old4.Probe4.ok [0, 2])).map
        (fun s => s.index)).Nodup :=
  ⟨((claim1_padding "RTX 2080Ti" 3 [0, 2] (by decide) (by decide)
      (by decide)).1 1).2 (by decide),
   (claim1_padding "RTX 2080Ti" 3 [0, 2] (by decide) (by decide)
      (by decide)).2.1⟩

/-- The model of the first slot of a node, the grouping key of
organize_data_by_type (only used for nonempty slot lists). -/
def headModel (l : List Gen.Gpu) : String :=
  match l with
  | [] => ""
  | g :: _ => g.model

/-- The node n is filed under model key m somewhere in the organized
model-to-nodes structure. -/
def appearsUnder (org : List (String × List (String × List Gen.Gpu)))
    (m n : String) : Prop :=
  ∃ ns, (m, ns) ∈ org ∧ n ∈ ns.map Prod.fst

theorem innerUpd_key_mem (node : String) (gpus : List Gen.Gpu)
    (inner : List (String × List Gen.Gpu)) (n : String) :
    n ∈ (Gen.innerUpd node gpus inner).map Prod.fst ↔
      n ∈ inner.map Prod.fst ∨ n = node := by
  induction inner with
  | nil => simp [Gen.innerUpd]
  | cons kv rest ih =>
    obtain ⟨k, v⟩ := kv
    unfold Gen.innerUpd
    by_cases hk : k = node
    · rw [if_pos hk]
      subst hk
      simp only [List.map_cons, List.mem_cons]
      tauto
    · rw [if_neg hk]
      simp only [List.map_cons, List.mem_cons, ih]
      tauto

theorem orgUpd_appears (model node : String) (gpus : List Gen.Gpu)
    (org : List (String × List (String × List Gen.Gpu))) (m n : String) :
    appearsUnder (Gen.orgUpd model node gpus org) m n ↔
      appearsUnder org m n ∨ (m = model ∧ n = node) := by
  induction org with
  | nil =>
    simp only [Gen.orgUpd, appearsUnder, List.mem_singleton, List.not_mem_nil,
      false_and, exists_const, false_or, Prod.mk.injEq]
    constructor
    · rintro ⟨ns, ⟨hm, hns⟩, hn⟩
      subst hns
      refine ⟨hm, ?_⟩
      simpa [Gen.innerUpd] using hn
    · rintro ⟨hm, hn⟩
      exact ⟨Gen.innerUpd node gpus [], ⟨hm, rfl⟩, by simpa [Gen.innerUpd] using hn⟩
  | cons kv rest ih =>
    obtain ⟨k, inner⟩ := kv
    unfold Gen.orgUpd
    by_cases hk : k = model
    · rw [if_pos hk]
      subst hk
      simp only [appearsUnder, List.mem_cons, Prod.mk.injEq] at ih ⊢
      constructor
      · rintro ⟨ns, hmem, hn⟩
        rcases hmem with ⟨hm, hns⟩ | hmem
        · subst hns
          rw [innerUpd_key_mem] at hn
          rcases hn with hn | hn
          · exact Or.inl ⟨inner, Or.inl ⟨hm, rfl⟩, hn⟩
          · exact Or.inr ⟨hm, hn⟩
        · exact Or.inl ⟨ns, Or.inr hmem, hn⟩
      · rintro (⟨ns, hmem, hn⟩ | ⟨hm, hn⟩)
        · rcases hmem with ⟨hm, hns⟩ | hmem
          · subst hns
            exact ⟨Gen.innerUpd node gpus ns, Or.inl ⟨hm, rfl⟩,
              (innerUpd_key_mem node gpus ns n).2 (Or.inl hn)⟩
          · exact ⟨ns, Or.inr hmem, hn⟩
        · exact ⟨Gen.innerUpd node gpus inner, Or.inl ⟨hm, rfl⟩,
            (innerUpd_key_mem node gpus inner n).2 (Or.inr hn)⟩
    · rw [if_neg hk]
      simp only [appearsUnder, List.mem_cons] at ih ⊢
      constructor
      · rintro ⟨ns, hmem, hn⟩
        rcases hmem with hns | hmem
        · exact Or.inl ⟨ns, Or.inl hns, hn⟩
        · rcases ih.1 ⟨ns, hmem, hn⟩ with ⟨ns2, h2, hn2⟩ | hr
          · exact Or.inl ⟨ns2, Or.inr h2, hn2⟩
          · exact Or.inr hr
      · rintro (⟨ns, hmem, hn⟩ | hr)
        · rcases hmem with hns | hmem
          · exact ⟨ns, Or.inl hns, hn⟩
          · rcases ih.2 (Or.inl ⟨ns, hmem, hn⟩) with ⟨ns2, h2, hn2⟩
            exact ⟨ns2, Or.inr h2, hn2⟩
        · rcases ih.2 (Or.inr hr) with ⟨ns2, h2, hn2⟩
          exact ⟨ns2, Or.inr h2, hn2⟩

theorem orgStep_appears (org : List (String × List (String × List Gen.Gpu)))
    (p : String × Gen.NodeData) (m n : String) :
    appearsUnder (Gen.orgStep org p) m n ↔
      appearsUnder org m n ∨
        (p.2.gpus ≠ [] ∧ m = headModel p.2.gpus ∧ n = p.1) := by
  obtain ⟨pname, pdata⟩ := p
  unfold Gen.orgStep
  cases hg : pdata.gpus with
  | nil => simp
  | cons g gs =>
    rw [orgUpd_appears]
    simp [headModel, hg]

theorem orgFold_appears (raw : List (String × Gen.NodeData))
    (org : List (String × List (String × List Gen.Gpu))) (m n : String) :
    appearsUnder (raw.foldl Gen.orgStep org) m n ↔
      appearsUnder org m n ∨
        ∃ p ∈ raw, p.2.gpus ≠ [] ∧ m = headModel p.2.gpus ∧ n = p.1 := by
  induction raw generalizing org with
  | nil => simp
  | cons p rest ih =>
    simp only [List.foldl_cons, ih, orgStep_appears, List.mem_cons]
    constructor
    · rintro ((h | h) | ⟨q, hq, hprop⟩)
      · exact Or.inl h
      · exact Or.inr ⟨p, Or.inl rfl, h⟩
      · exact Or.inr ⟨q, Or.inr hq, hprop⟩
    · rintro (h | ⟨q, hq | hq, hprop⟩)
      · exact Or.inl (Or.inl h)
      · subst hq
        exact Or.inl (Or.inr hprop)
      · exact Or.inr ⟨q, hq, hprop⟩

theorem orgUpd_keys (model node : String) (gpus : List Gen.Gpu)
    (org : List (String × List (String × List Gen.Gpu))) :
    (Gen.orgUpd model node gpus org).map Prod.fst =
      if model ∈ org.map Prod.fst then org.map Prod.fst
      else org.map Prod.fst ++ [model] := by
  induction org with
  | nil => simp [Gen.orgUpd]
  | cons kv rest ih =>
    obtain ⟨k, inner⟩ := kv
    unfold Gen.orgUpd
    by_cases hk : k = model
    · rw [if_pos hk]
      subst hk
      simp
    · rw [if_neg hk]
      simp only [List.map_cons, ih]
      by_cases hm : model ∈ rest.map Prod.fst
      · rw [if_pos hm, if_pos (List.mem_cons_of_mem k hm)]
      · rw [if_neg hm, if_neg (by
          simp only [List.mem_cons]
          rintro (h | h)
          · exact hk h.symm
          · exact hm h)]
        simp

theorem orgUpd_keys_nodup (model node : String) (gpus : List Gen.Gpu)
    (org : List (String × List (String × List Gen.Gpu)))
    (h : (org.map Prod.fst).Nodup) :
    ((Gen.orgUpd model node gpus org).map Prod.fst).Nodup := by
  rw [orgUpd_keys]
  by_cases hm : model ∈ org.map Prod.fst
  · rw [if_pos hm]
    exact h
  · rw [if_neg hm]
    refine List.nodup_append.2 ⟨h, List.nodup_singleton model, fun a ha hb => ?_⟩
    rw [List.mem_singleton] at hb
    subst hb
    exact hm ha

theorem orgStep_keys_nodup (org : List (String × List (String × List Gen.Gpu)))
    (p : String × Gen.NodeData) (h : (org.map Prod.fst).Nodup) :
    ((Gen.orgStep org p).map Prod.fst).Nodup := by
  unfold Gen.orgStep
  cases p.2.gpus with
  | nil => exact h
  | cons g gs => exact orgUpd_keys_nodup _ _ _ _ h

theorem orgFold_keys_nodup (raw : List (String × Gen.NodeData))
    (org : List (String × List (String × List Gen.Gpu)))
    (h : (org.map Prod.fst).Nodup) :
    ((raw.foldl Gen.orgStep org).map Prod.fst).Nodup := by
  induction raw generalizing org with
  | nil => exact h
  | cons p rest ih => exact ih _ (orgStep_keys_nodup org p h)

theorem appearsUnder_pySort (le : (String × List (String × List Gen.Gpu)) →
      (String × List (String × List Gen.Gpu)) → Bool)
    (org : List (String × List (String × List Gen.Gpu))) (m n : String) :
    appearsUnder (pySort le org) m n ↔ appearsUnder org m n := by
  unfold appearsUnder
  constructor
  · rintro ⟨ns, hmem, hn⟩
    exact ⟨ns, (mem_pySort le org _).1 hmem, hn⟩
  · rintro ⟨ns, hmem, hn⟩
    exact ⟨ns, (mem_pySort le org _).2 hmem, hn⟩

theorem nodup_keys_val_unique {β : Type} {raw : List (String × β)}
    (h : (raw.map Prod.fst).Nodup) {k : String} {x y : β}
    (hx : (k, x) ∈ raw) (hy : (k, y) ∈ raw) : x = y := by
  induction raw with
  | nil => cases hx
  | cons p rest ih =>
    obtain ⟨k0, v0⟩ := p
    simp only [List.map_cons, List.nodup_cons] at h
    rcases List.mem_cons.1 hx with hx1 | hx1 <;> rcases List.mem_cons.1 hy with hy1 | hy1
    · injection hx1 with ha hb
      injection hy1 with hc hd
      rw [hb, hd]
    · injection hx1 with ha hb
      exfalso
      apply h.1
      rw [← ha]
      exact List.mem_map_of_mem Prod.fst hy1
    · injection hy1 with hc hd
      exfalso
      apply h.1
      rw [← hc]
      exact List.mem_map_of_mem Prod.fst hx1
    · exact ih h.2 hx1 hy1

/-- C9: over a node dict with distinct node names, the model-grouped output
files a node with an empty final slot list under no model key at all, and a
node with a nonempty slot list under exactly the model of its first slot
(the outer model keys carry no duplicates, so the grouping key is unique). -/
theorem claim9_model_grouping (raw : List (String × Gen.NodeData))
    (hnd : (raw.map Prod.fst).Nodup) (node : String) (nd : Gen.NodeData)
    (hmem : (node, nd) ∈ raw) :
    (∀ m : String, appearsUnder (Gen.organize_data_by_type raw) m node ↔
        (nd.gpus ≠ [] ∧ m = headModel nd.gpus)) ∧
    ((Gen.organize_data_by_type raw).map Prod.fst).Nodup := by
  constructor
  · intro m
    unfold Gen.organize_data_by_type
    rw [appearsUnder_pySort, orgFold_appears]
    simp only [appearsUnder, List.not_mem_nil, false_and, exists_const, false_or]
    constructor
    · rintro ⟨p, hp, hne, hm, hnp⟩
      obtain ⟨pn, pd⟩ := p
      simp only at hne hm hnp
      rw [hnp] at hmem
      have hpd : pd = nd := nodup_keys_val_unique hnd hp hmem
      rw [hpd] at hne hm
      exact ⟨hne, hm⟩
    · rintro ⟨hne, hm⟩
      exact ⟨(node, nd), hmem, hne, hm, rfl⟩
  · unfold Gen.organize_data_by_type
    rw [((pySort_perm _ (raw.foldl Gen.orgStep [])).map Prod.fst).nodup_iff]
    exact orgFold_keys_nodup raw [] (by simp)

/-- C9 witness: a two-node dict where node n1 has one A100 slot and node n2
has an empty slot list; n1 appears under the model key A100 and n2 appears
under no key. -/
theorem claim9_witness :
    appearsUnder
      (Gen.organize_data_by_type
        [("n1", ⟨"idle", [⟨"A100", "0", "good"⟩]⟩), ("n2", ⟨"down", []⟩)])
      "A100" "n1" ∧
    ¬ appearsUnder
      (Gen.organize_data_by_type
        [("n1", ⟨"idle", [⟨"A100", "0", "good"⟩]⟩), ("n2", ⟨"down", []⟩)])
      "A100" "n2" := by
  constructor
  · exact ((claim9_model_grouping
      [("n1", ⟨"idle", [⟨"A100", "0", "good"⟩]⟩), ("n2", ⟨"down", []⟩)]
      (by decide) "n1" ⟨"idle", [⟨"A100", "0", "good"⟩]⟩ (by decide)).1 "A100").2
      (by decide)
  · intro hap
    have := ((claim9_model_grouping
      [("n1", ⟨"idle", [⟨"A100", "0", "good"⟩]⟩), ("n2", ⟨"down", []⟩)]
      (by decide) "n2" ⟨"down", []⟩ (by decide)).1 "A100").1 hap
    exact this.1 rfl
